import Mathlib

/-!
Verification of the core of `pdf-extractor.py`: the token-budgeted chunk
splitter, the page-range parser, the prompt-budget computation and the
per-chunk extraction orchestrator, shallowly embedded in Lean.

Tokens are modelled as opaque naturals.  The tokenizer (`tiktoken`'s
`cl100k_base` in the source) is a parameter `encode : String → List Token`
(with `decode : List Token → String` where the source decodes); chunks are
represented by the token sequences the splitter assembles, which the source
decodes back to text just before returning them.  The remote OpenAI
completion call is a parameter `complete : Nat → String → Option String`
(chunk index and rendered prompt; `none` models a raised
transport/rate-limit/API error).  `st.error` reporting is modelled by an
explicit error list in the result.
-/

/-- ASCII model of Python `str` whitespace: `' '`, `\t`, `\n`, `\r`,
`\x0b`, `\x0c` (the characters stripped by `str.strip()`). -/
def pyWs (c : Char) : Bool :=
  c == ' ' || c == '\t' || c == '\n' || c == '\r' || c == Char.ofNat 11 || c == Char.ofNat 12

/-- Characters of Python `s.strip()`: whitespace removed from both ends. -/
def stripChars (cs : List Char) : List Char :=
  ((cs.dropWhile pyWs).reverse.dropWhile pyWs).reverse

/-- Python `s.strip()`. -/
def pyStrip (s : String) : String := String.mk (stripChars s.toList)

/-- Python `str.split` on a one-character separator, on character lists:
`[] ↦ [[]]` (so `''.split(c) == ['']`), and separators delimit possibly
empty groups. -/
def splitCharList (sep : Char) : List Char → List (List Char)
  | [] => [[]]
  | c :: cs =>
    if c == sep then [] :: splitCharList sep cs
    else
      match splitCharList sep cs with
      | [] => [[c]]
      | g :: gs => (c :: g) :: gs

/-- Python `s.split(sep)` for a one-character `sep`. -/
def pySplit (sep : Char) (s : String) : List String :=
  (splitCharList sep s.toList).map String.mk

/-- Opaque token identifiers produced by the tokenizer capability. -/
abbrev Token := Nat

/-- A concrete tokenizer used for witnesses: one token per character
(this agrees with `cl100k_base` on the short ASCII inputs used below,
in particular `encode "\n"` is a single token). -/
def charEncode (s : String) : List Token := s.toList.map Char.toNat

/-- Decoder matching `charEncode`. -/
def charDecode (ts : List Token) : String := String.mk (ts.map Char.ofNat)

/-- One iteration of the oversize-paragraph slicing loop of
`split_text_into_chunks`:
`take = min(len(tokens), max_tokens)`, emit `tokens[:take]`, continue with
`tokens[take:]`. -/
def sliceStep (max_tokens : Nat) (tokens : List Token) : List Token × List Token :=
  (tokens.take (min tokens.length max_tokens), tokens.drop (min tokens.length max_tokens))

/-- The `while tokens:` slicing loop of `split_text_into_chunks`, run for at
most `fuel` iterations.  The second component is the value of the loop
variable when the fuel ran out; it is `[]` exactly when the loop finished
within `fuel` iterations. -/
def sliceLoop : Nat → Nat → List Token → List (List Token) × List Token
  | 0, _, tokens => ([], tokens)
  | fuel + 1, max_tokens, tokens =>
    match tokens with
    | [] => ([], [])
    | _ :: _ =>
      let p := sliceStep max_tokens tokens
      let q := sliceLoop fuel max_tokens p.2
      (p.1 :: q.1, q.2)

/-- The mutable state of the paragraph loop in `split_text_into_chunks`:
`chunks`, `current_chunk` and `current_token_count`. -/
structure SplitState where
  chunks : List (List Token)
  current_chunk : List Token
  current_token_count : Nat

/-- The body of `for para in paragraphs:` in `split_text_into_chunks`.
Note the source increments `current_token_count` by the literal `1` for the
appended newline while extending `current_chunk` with `encoding.encode('\n')`,
and that the flush (`if current_chunk:`) tests only the list, exactly as the
Python does. -/
def processPara (max_tokens : Nat) (encode : String → List Token)
    (st : SplitState) (para : String) : SplitState :=
  let para_tokens := encode para
  let para_token_count := para_tokens.length
  if st.current_token_count + para_token_count > max_tokens then
    let st1 :=
      if st.current_chunk.isEmpty then st
      else { chunks := st.chunks ++ [st.current_chunk],
             current_chunk := [], current_token_count := 0 }
    if para_token_count > max_tokens then
      { st1 with
        chunks := st1.chunks ++ (sliceLoop para_tokens.length max_tokens para_tokens).1 }
    else
      { st1 with current_chunk := para_tokens, current_token_count := para_token_count }
  else
    { st with
      current_chunk := st.current_chunk ++ para_tokens ++ encode "\n",
      current_token_count := st.current_token_count + para_token_count + 1 }

/-- Model of `split_text_into_chunks(text, max_tokens, encoding)`: split on `'\n'`,
greedily pack paragraphs into a token buffer, slice oversize paragraphs,
flush the final buffer.  Chunks are represented by the token sequences the
source would pass to `encoding.decode`. -/
def split_text_into_chunks (text : String) (max_tokens : Nat)
    (encode : String → List Token) : List (List Token) :=
  let st := (pySplit '\n' text).foldl (processPara max_tokens encode) ⟨[], [], 0⟩
  if st.current_chunk.isEmpty then st.chunks else st.chunks ++ [st.current_chunk]

/-- Is a character a valid run of digits possibly containing single
underscores between digits, as accepted inside Python `int()` literals
(`int("1_000") == 1000`, while `int("_1")`, `int("1_")`, `int("1__2")`
raise). -/
def digitsUnd : List Char → Bool
  | [] => false
  | [c] => c.isDigit
  | c :: c2 :: rest =>
    c.isDigit &&
      (if c2 == '_' then
        (match rest with
         | [] => false
         | _ :: _ => digitsUnd rest)
      else digitsUnd (c2 :: rest))

/-- Numeric value of a digit-and-underscore run (underscores skipped). -/
def digitsVal (cs : List Char) : Nat :=
  cs.foldl (fun acc c => if c == '_' then acc else acc * 10 + (c.toNat - 48)) 0

/-- Python `int(s)` on ASCII input: strip whitespace, optional sign,
digits with optional single underscores between them; `none` models the
raised `ValueError`. -/
def pyInt (s : String) : Option Int :=
  match stripChars s.toList with
  | [] => none
  | c :: rest =>
    if c == '+' then
      (if digitsUnd rest then some ((digitsVal rest : Nat) : Int) else none)
    else if c == '-' then
      (if digitsUnd rest then some (-((digitsVal rest : Nat) : Int)) else none)
    else if digitsUnd (c :: rest) then some ((digitsVal (c :: rest) : Nat) : Int)
    else none

/-- Python `range(a, b)` as a list of integers. -/
def intRange (a b : Int) : List Int :=
  (List.range (b - a).toNat).map (fun n : Nat => a + (n : Int))

/-- Ordered duplicate-dropping insertion into a strictly sorted list. -/
def insertPage (x : Int) : List Int → List Int
  | [] => [x]
  | y :: ys =>
    if x < y then x :: y :: ys
    else if x = y then y :: ys
    else y :: insertPage x ys

/-- Python `sorted(list(set(pages)))` for integer lists: the strictly
increasing enumeration of the elements. -/
def sortedSet (l : List Int) : List Int := l.foldl (fun acc x => insertPage x acc) []

/-- Model of `start, end = map(int, part.split('-'))`: exactly two `-`-separated
pieces, both parsing as ints; any failure raises (is `none`). -/
def parseRangeTerm (part : String) : Option (Int × Int) :=
  match pySplit '-' part with
  | [a, b] =>
    match pyInt a, pyInt b with
    | some s, some e => some (s, e)
    | _, _ => none
  | _ => none

/-- The `for part in parts:` loop of `parse_page_range`; `none` models the
early `return []` taken when a term fails to parse.  Range terms are
clamped (`start = max(1, start)`, `end = min(total_pages, end)`) and
contribute `range(start-1, end)`; single terms contribute `page-1` when
`1 <= page <= total_pages`. -/
def processParts (total_pages : Nat) : List String → Option (List Int)
  | [] => some []
  | part :: rest =>
    if part.toList.contains '-' then
      match parseRangeTerm part with
      | none => none
      | some se =>
        match processParts total_pages rest with
        | none => none
        | some pages => some (intRange (max 1 se.1 - 1) (min (total_pages : Int) se.2) ++ pages)
    else
      match pyInt part with
      | none => none
      | some page =>
        match processParts total_pages rest with
        | none => none
        | some pages =>
          if 1 ≤ page ∧ page ≤ (total_pages : Int) then some ((page - 1) :: pages)
          else some pages

/-- Model of `parse_page_range(page_range_str, total_pages)`. -/
def parse_page_range (page_range_str : String) (total_pages : Nat) : List Int :=
  if (pyStrip page_range_str).isEmpty then intRange 0 (total_pages : Int)
  else
    match processParts total_pages (pySplit ',' page_range_str) with
    | none => []
    | some pages => sortedSet pages

/-- A term the parser rejects: for `-`-terms a failing
`start, end = map(int, ...)`, otherwise a failing `int(part)`. -/
abbrev badTerm (part : String) : Prop :=
  (part.toList.contains '-' = true ∧ parseRangeTerm part = none) ∨
  (part.toList.contains '-' = false ∧ pyInt part = none)

/-- The opening brace character. -/
def lbrace : Char := Char.ofNat 123

/-- The closing brace character. -/
def rbrace : Char := Char.ofNat 125

/-- JSON values as produced by Python `json.loads` on the candidate
substrings: numbers are kept as their source lexeme (no numeric claim
inspects their value). -/
inductive JsonVal where
  | null
  | bool (b : Bool)
  | num (lexeme : String)
  | str (s : String)
  | arr (elems : List JsonVal)
  | obj (members : List (String × JsonVal))

/-- Python `dict` insertion: an existing key keeps its position and gets the new
value (duplicate keys in a JSON object: last value wins). -/
def objUpdate (k : String) (v : JsonVal) : List (String × JsonVal) → List (String × JsonVal)
  | [] => [(k, v)]
  | (k1, v1) :: rest => if k1 = k then (k1, v) :: rest else (k1, v1) :: objUpdate k v rest

/-- JSON whitespace (space, tab, newline, carriage return). -/
def jsonWs (c : Char) : Bool := c == ' ' || c == '\t' || c == '\n' || c == '\r'

/-- Skip JSON whitespace. -/
def skipJsonWs (cs : List Char) : List Char := cs.dropWhile jsonWs

/-- Value of one hexadecimal digit. -/
def hexVal (c : Char) : Option Nat :=
  if c.isDigit then some (c.toNat - 48)
  else if 'a' ≤ c && c ≤ 'f' then some (c.toNat - 87)
  else if 'A' ≤ c && c ≤ 'F' then some (c.toNat - 55)
  else none

/-- Scan a JSON string body after the opening quote, decoding escapes.
`strict=False` in the source's `json.loads(x, strict=False)` allows raw
control characters inside strings, so any unescaped character other than
`"` and `\` is accepted.  (`\uXXXX` is decoded as a single code point;
surrogate pairs are not combined — no astral-plane data appears here.) -/
def parseJStringAux : Nat → List Char → List Char → Option (String × List Char)
  | 0, _, _ => none
  | fuel + 1, acc, cs =>
    match cs with
    | [] => none
    | c :: rest =>
      if c == '\"' then some (String.mk acc.reverse, rest)
      else if c == '\\' then
        match rest with
        | [] => none
        | e :: rest2 =>
          if e == '\"' then parseJStringAux fuel ('\"' :: acc) rest2
          else if e == '\\' then parseJStringAux fuel ('\\' :: acc) rest2
          else if e == '/' then parseJStringAux fuel ('/' :: acc) rest2
          else if e == 'b' then parseJStringAux fuel (Char.ofNat 8 :: acc) rest2
          else if e == 'f' then parseJStringAux fuel (Char.ofNat 12 :: acc) rest2
          else if e == 'n' then parseJStringAux fuel ('\n' :: acc) rest2
          else if e == 'r' then parseJStringAux fuel ('\r' :: acc) rest2
          else if e == 't' then parseJStringAux fuel ('\t' :: acc) rest2
          else if e == 'u' then
            match rest2 with
            | h1 :: h2 :: h3 :: h4 :: rest3 =>
              match hexVal h1, hexVal h2, hexVal h3, hexVal h4 with
              | some a, some b, some c1, some d =>
                parseJStringAux fuel (Char.ofNat (((a * 16 + b) * 16 + c1) * 16 + d) :: acc) rest3
              | _, _, _, _ => none
            | _ => none
          else none
      else parseJStringAux fuel (c :: acc) rest

/-- Parse a JSON string after its opening quote. -/
def parseJString (cs : List Char) : Option (String × List Char) :=
  parseJStringAux (cs.length + 1) [] cs

/-- Does `p` occur at the start of `cs`? -/
def startsList : List Char → List Char → Bool
  | [], _ => true
  | _ :: _, [] => false
  | p :: ps, c :: cs => p == c && startsList ps cs

/-- Parse a JSON number per the grammar `json.loads` uses:
`-?(0|[1-9][0-9]*)(\.[0-9]+)?([eE][-+]?[0-9]+)?`; returns the lexeme. -/
def parseJNumber (cs : List Char) : Option (String × List Char) :=
  let sp : List Char × List Char :=
    match cs with
    | c :: r => if c == '-' then ([c], r) else ([], cs)
    | [] => ([], cs)
  match sp.2 with
  | [] => none
  | c :: r =>
    if !c.isDigit then none
    else
      let ip : List Char × List Char :=
        if c == '0' then (['0'], r)
        else ((c :: r).takeWhile Char.isDigit, (c :: r).dropWhile Char.isDigit)
      let fp : List Char × List Char :=
        match ip.2 with
        | d :: r1 =>
          if d == '.' then
            (if (r1.takeWhile Char.isDigit).isEmpty then ([], ip.2)
             else (d :: r1.takeWhile Char.isDigit, r1.dropWhile Char.isDigit))
          else ([], ip.2)
        | [] => ([], ip.2)
      let ep : List Char × List Char :=
        match fp.2 with
        | e :: r2 =>
          if e == 'e' || e == 'E' then
            match r2 with
            | s1 :: r3 =>
              if s1 == '+' || s1 == '-' then
                (if (r3.takeWhile Char.isDigit).isEmpty then ([], fp.2)
                 else (e :: s1 :: r3.takeWhile Char.isDigit, r3.dropWhile Char.isDigit))
              else
                (if (r2.takeWhile Char.isDigit).isEmpty then ([], fp.2)
                 else (e :: r2.takeWhile Char.isDigit, r2.dropWhile Char.isDigit))
            | [] => ([], fp.2)
          else ([], fp.2)
        | [] => ([], fp.2)
      some (String.mk (sp.1 ++ ip.1 ++ fp.1 ++ ep.1), ep.2)

mutual

/-- Parse one JSON value (fuelled recursion; callers pass ample fuel).
Mirrors the `json.loads` grammar, including the `NaN`/`Infinity`
constants Python accepts. -/
def parseJValue : Nat → List Char → Option (JsonVal × List Char)
  | 0, _ => none
  | fuel + 1, cs0 =>
    let cs := skipJsonWs cs0
    match cs with
    | [] => none
    | c :: rest =>
      if c == lbrace then
        match skipJsonWs rest with
        | d :: rest2 =>
          if d == rbrace then some (.obj [], rest2)
          else parseJMembers fuel [] (skipJsonWs rest)
        | [] => none
      else if c == '[' then
        match skipJsonWs rest with
        | d :: rest2 =>
          if d == ']' then some (.arr [], rest2)
          else parseJItems fuel [] (skipJsonWs rest)
        | [] => none
      else if c == '\"' then
        match parseJString rest with
        | some sr => some (.str sr.1, sr.2)
        | none => none
      else if startsList ['t', 'r', 'u', 'e'] cs then some (.bool true, cs.drop 4)
      else if startsList ['f', 'a', 'l', 's', 'e'] cs then some (.bool false, cs.drop 5)
      else if startsList ['n', 'u', 'l', 'l'] cs then some (.null, cs.drop 4)
      else if startsList ['N', 'a', 'N'] cs then some (.num "NaN", cs.drop 3)
      else if startsList ['I', 'n', 'f', 'i', 'n', 'i', 't', 'y'] cs then
        some (.num "Infinity", cs.drop 8)
      else if startsList ['-', 'I', 'n', 'f', 'i', 'n', 'i', 't', 'y'] cs then
        some (.num "-Infinity", cs.drop 9)
      else
        match parseJNumber cs with
        | some lr => some (.num lr.1, lr.2)
        | none => none

/-- Parse the members of a JSON object, positioned at a property name. -/
def parseJMembers : Nat → List (String × JsonVal) → List Char →
    Option (JsonVal × List Char)
  | 0, _, _ => none
  | fuel + 1, acc, cs =>
    match cs with
    | [] => none
    | c :: rest =>
      if c == '\"' then
        match parseJString rest with
        | none => none
        | some kr =>
          match skipJsonWs kr.2 with
          | [] => none
          | d :: rest2 =>
            if d == ':' then
              match parseJValue fuel rest2 with
              | none => none
              | some vr =>
                match skipJsonWs vr.2 with
                | [] => none
                | d2 :: rest3 =>
                  if d2 == ',' then
                    parseJMembers fuel (objUpdate kr.1 vr.1 acc) (skipJsonWs rest3)
                  else if d2 == rbrace then some (.obj (objUpdate kr.1 vr.1 acc), rest3)
                  else none
            else none
      else none

/-- Parse the items of a JSON array, positioned at a value. -/
def parseJItems : Nat → List JsonVal → List Char → Option (JsonVal × List Char)
  | 0, _, _ => none
  | fuel + 1, acc, cs =>
    match parseJValue fuel cs with
    | none => none
    | some vr =>
      match skipJsonWs vr.2 with
      | [] => none
      | d :: rest =>
        if d == ',' then parseJItems fuel (acc ++ [vr.1]) rest
        else if d == ']' then some (.arr (acc ++ [vr.1]), rest)
        else none

end

/-- Python `json.loads(s, strict=False)`: one JSON value spanning the whole
string (up to surrounding whitespace), else `None`-as-failure. -/
def jsonLoads (s : String) : Option JsonVal :=
  match parseJValue (2 * s.length + 2) s.toList with
  | some vr => if (skipJsonWs vr.2).isEmpty then some vr.1 else none
  | none => none

/-- Model of `json_str.replace("\n", " ")`. -/
def flattenNewlines (s : String) : String :=
  String.mk (s.toList.map fun c => if c == '\n' then ' ' else c)

/-- Characters up to (excluding) the first closing brace, with the rest
after it; `none` when no closing brace occurs. -/
def takeToClose : List Char → Option (List Char × List Char)
  | [] => none
  | c :: cs =>
    if c == rbrace then some ([], cs)
    else
      match takeToClose cs with
      | none => none
      | some br => some (c :: br.1, br.2)

/-- Model of `re.findall(r'\{.*?}', s)` on newline-free input: each match runs from
an opening brace to the nearest closing brace after it; scanning resumes
after the match. -/
def findCandidatesAux : Nat → List Char → List String
  | 0, _ => []
  | fuel + 1, cs =>
    match cs.dropWhile (fun c => c != lbrace) with
    | [] => []
    | _ :: rest =>
      match takeToClose rest with
      | none => []
      | some br =>
        String.mk (lbrace :: (br.1 ++ [rbrace])) :: findCandidatesAux fuel br.2

/-- All non-greedy brace-delimited candidate substrings of `s`. -/
def findCandidates (s : String) : List String :=
  findCandidatesAux (s.length + 1) s.toList

/-- The response-parsing loop of `extract_data_with_openai`: flatten
newlines, scan for brace-delimited candidates, `json.loads` each one,
silently dropping the candidates that fail to parse. -/
def parseCompletion (resp : String) : List JsonVal :=
  (findCandidates (flattenNewlines resp)).foldl
    (fun data x =>
      match jsonLoads x with
      | some v => data ++ [v]
      | none => data) []

/-- The f-string template of `generate_prompt` composed with
`prompt_template.format(text=...)`: the static instruction text with the
column list (as rendered into the f-string), the instructions and the
document text substituted.  (Python would raise on stray brace fields in
`columns`/`instructions`; no relevant input contains braces.) -/
def prompt_render (columns instructions text : String) : String :=
  "\n    Extract structured data from the following text. Follow these requirements:\n    1. Output only JSON format with a list of objects\n    2. Use exactly these column names: " ++
    columns ++
    "\n    3. " ++ instructions ++
    "\n    4. Maintain data types (string, number, date)\n    5. Return empty string if information not available\n    \n    Text content:\n    " ++
    text ++
    "\n    \n    JSON output:\n    "

/-- The constant `model_max_tokens = 128000`. -/
def model_max_tokens : Nat := 128000

/-- The constant `reserved_response_tokens = 2000`. -/
def reserved_response_tokens : Nat := 2000

/-- The budget `available_tokens = model_max_tokens - static_tokens -
reserved_response_tokens`, where `static_tokens` counts the tokens of the
template rendered with empty text, using the same tokenizer as chunking. -/
def availableTokens (encode : String → List Token) (columns instructions : String) : Int :=
  (model_max_tokens : Int) - ((encode (prompt_render columns instructions "")).length : Int)
    - (reserved_response_tokens : Int)

/-- The `st.error` reports the orchestrator can emit. -/
inductive ExtractError where
  | promptTooLong
  | chunkFailure (chunk : List Token)
deriving DecidableEq

/-- One iteration of the per-chunk loop: render the prompt with the chunk's
text and call the completion capability; a raised error (`none`) yields no
records plus a logged failure, otherwise the tolerant response parsing
runs. -/
def processChunk (complete : Nat → String → Option String)
    (decode : List Token → String) (columns instructions : String)
    (i : Nat) (chunk : List Token) : List JsonVal × List ExtractError :=
  match complete i (prompt_render columns instructions (decode chunk)) with
  | none => ([], [ExtractError.chunkFailure chunk])
  | some resp => (parseCompletion resp, [])

/-- The chunk loop: accumulate records (`all_data.extend(data)`) and error
reports in chunk order. -/
def runChunks (step : Nat → List Token → List JsonVal × List ExtractError) :
    Nat → List (List Token) → List JsonVal × List ExtractError
  | _, [] => ([], [])
  | i, c :: cs =>
    let d := step i c
    let ds := runChunks step (i + 1) cs
    (d.1 ++ ds.1, d.2 ++ ds.2)

/-- The record list each chunk contributes, in chunk order. -/
def chunkOutputs (step : Nat → List Token → List JsonVal × List ExtractError) :
    Nat → List (List Token) → List (List JsonVal)
  | _, [] => []
  | i, c :: cs => (step i c).1 :: chunkOutputs step (i + 1) cs

/-- Model of `if not multiple_rows and all_data: return [all_data[0]]`. -/
def finalizeRows (multiple_rows : Bool) (all_data : List JsonVal) : List JsonVal :=
  if multiple_rows then all_data
  else
    match all_data with
    | [] => []
    | d :: _ => [d]

/-- The part of `extract_data_with_openai` from chunk splitting on, once a
positive token budget has been computed. -/
def afterBudget (encode : String → List Token) (decode : List Token → String)
    (complete : Nat → String → Option String)
    (text columns instructions : String) (multiple_rows : Bool) (budget : Nat) :
    List JsonVal × List ExtractError :=
  let chunks := split_text_into_chunks text budget encode
  if chunks.isEmpty then ([], [])
  else
    let de := runChunks (processChunk complete decode columns instructions) 0 chunks
    (finalizeRows multiple_rows de.1, de.2)

/-- Model of `extract_data_with_openai(text, columns, instructions, api_key,
multiple_rows)`: empty on whitespace-only text, abort with `PromptTooLong`
on a non-positive budget, otherwise split and process each chunk.  The
result pairs the returned record list with the `st.error` reports. -/
def extract_data_with_openai (encode : String → List Token)
    (decode : List Token → String) (complete : Nat → String → Option String)
    (text columns instructions : String) (multiple_rows : Bool) :
    List JsonVal × List ExtractError :=
  if (pyStrip text).isEmpty then ([], [])
  else
    let avail := availableTokens encode columns instructions
    if avail ≤ 0 then ([], [ExtractError.promptTooLong])
    else afterBudget encode decode complete text columns instructions multiple_rows avail.toNat

example : split_text_into_chunks "a" 1 charEncode = [[97, 10]] := by decide
example : split_text_into_chunks "" 5 charEncode = [[10]] := by decide
example : split_text_into_chunks "abcde" 2 charEncode = [[97, 98], [99, 100], [101]] := by
  decide
example : parse_page_range "" 3 = [0, 1, 2] := by decide
example : parse_page_range "abc" 5 = [] := by decide
example : parse_page_range "2-1" 5 = [] := by decide
example : parse_page_range "1-3,5" 5 = [0, 1, 2, 4] := by decide
example : parse_page_range "2-1,3" 5 = [2] := by decide
example : parse_page_range "3,1,3" 5 = [0, 2] := by decide
example : parse_page_range "0-2" 5 = [0, 1] := by decide
example : jsonLoads "\x7b\"a\": 1\x7d" = some (.obj [("a", .num "1")]) := by rfl
example : jsonLoads "\x7b\"a\": \x7b\"b\"" = none := by rfl
example : jsonLoads "\x7b\"a\": [1, \"x\", true, null]\x7d"
    = some (.obj [("a", .arr [.num "1", .str "x", .bool true, .null])]) := by rfl
example : jsonLoads "\x7b\"a\":1\x7d extra" = none := by rfl
example : jsonLoads "\x7b\"a\": -2.5e3, \"a\": 7\x7d" = some (.obj [("a", .num "7")]) := by rfl
example : findCandidates "ab\x7bc\x7bd\x7de\x7df" = ["\x7bc\x7bd\x7d"] := by rfl
example : parseCompletion "Here is the data: \x7b\"a\": 1\x7d and more text"
    = [.obj [("a", .num "1")]] := by rfl
example : parseCompletion "\x7bnot json\x7d \x7b\"b\": 2\x7d"
    = [.obj [("b", .num "2")]] := by rfl

theorem join_all_ne_nil {α : Type} :
    ∀ l : List (List α), (∀ c ∈ l, c ≠ []) → l.flatten = [] → l = [] := by
  intro l h hj
  cases l with
  | nil => rfl
  | cons c cs =>
    exfalso
    simp only [List.flatten_cons, List.append_eq_nil] at hj
    exact h c (List.mem_cons_self c cs) hj.1

theorem sliceLoop_spec (max_tokens : Nat) (hmax : 1 ≤ max_tokens) :
    ∀ (fuel : Nat) (ts : List Token), ts.length ≤ fuel →
      (sliceLoop fuel max_tokens ts).2 = [] ∧
      (sliceLoop fuel max_tokens ts).1.flatten = ts ∧
      (∀ c ∈ (sliceLoop fuel max_tokens ts).1, c ≠ [] ∧ c.length ≤ max_tokens) ∧
      (∀ c ∈ (sliceLoop fuel max_tokens ts).1.dropLast, c.length = max_tokens) ∧
      (sliceLoop fuel max_tokens ts).1.length = (ts.length + max_tokens - 1) / max_tokens := by
  intro fuel
  induction fuel with
  | zero =>
    intro ts hts
    have h0 : ts = [] := List.eq_nil_of_length_eq_zero (Nat.le_zero.mp hts)
    subst h0
    refine ⟨rfl, rfl, by simp [sliceLoop], by simp [sliceLoop], ?_⟩
    show (0 : Nat) = (0 + max_tokens - 1) / max_tokens
    rw [Nat.zero_add, Nat.div_eq_of_lt (by omega)]
  | succ fuel ih =>
    intro ts hts
    cases ts with
    | nil =>
      refine ⟨rfl, rfl, by simp [sliceLoop], by simp [sliceLoop], ?_⟩
      show (0 : Nat) = (0 + max_tokens - 1) / max_tokens
      rw [Nat.zero_add, Nat.div_eq_of_lt (by omega)]
    | cons t ts' =>
      have hlt : 1 ≤ (t :: ts').length := by simp
      have hk1 : 1 ≤ min (t :: ts').length max_tokens := le_min hlt hmax
      have hkle : min (t :: ts').length max_tokens ≤ (t :: ts').length := Nat.min_le_left _ _
      have hdrop : (((t :: ts').drop (min (t :: ts').length max_tokens))).length ≤ fuel := by
        rw [List.length_drop]
        have := hts
        simp only [List.length_cons] at this ⊢
        omega
      have IH := ih ((t :: ts').drop (min (t :: ts').length max_tokens)) hdrop
      have hunfold : sliceLoop (fuel + 1) max_tokens (t :: ts')
          = ((t :: ts').take (min (t :: ts').length max_tokens)
              :: (sliceLoop fuel max_tokens
                   ((t :: ts').drop (min (t :: ts').length max_tokens))).1,
             (sliceLoop fuel max_tokens
               ((t :: ts').drop (min (t :: ts').length max_tokens))).2) := rfl
      rw [hunfold]
      have htakelen : ((t :: ts').take (min (t :: ts').length max_tokens)).length
          = min (t :: ts').length max_tokens := by
        rw [List.length_take]
        omega
      refine ⟨IH.1, ?_, ?_, ?_, ?_⟩
      · show (t :: ts').take _ ++ _ = t :: ts'
        rw [IH.2.1, List.take_append_drop]
      · intro c hc
        rcases List.mem_cons.mp hc with rfl | hc
        · constructor
          · intro hnil
            have := htakelen
            rw [hnil] at this
            simp at this
            omega
          · rw [htakelen]; exact Nat.min_le_right _ _
        · exact IH.2.2.1 c hc
      · -- dropLast: all but the last slice have length exactly max_tokens
        cases hq : (sliceLoop fuel max_tokens
            ((t :: ts').drop (min (t :: ts').length max_tokens))).1 with
        | nil => simp
        | cons m ms =>
          intro c hc
          rw [List.dropLast_cons₂] at hc
          have hrest : ((t :: ts').drop (min (t :: ts').length max_tokens)) ≠ [] := by
            intro hnil
            have := IH.2.1
            rw [hq, hnil] at this
            have hm := IH.2.2.1 m (by rw [hq]; exact List.mem_cons_self m ms)
            simp only [List.flatten_cons, List.append_eq_nil] at this
            exact hm.1 this.1
          have hklt : min (t :: ts').length max_tokens < (t :: ts').length := by
            by_contra hge
            apply hrest
            rw [List.drop_eq_nil_iff]
            omega
          have hkmax : min (t :: ts').length max_tokens = max_tokens := by omega
          rcases List.mem_cons.mp hc with rfl | hc
          · rw [htakelen, hkmax]
          · have := IH.2.2.2.1
            rw [hq] at this
            exact this c hc
      · -- chunk count
        show _ + 1 = ((t :: ts').length + max_tokens - 1) / max_tokens
        rw [IH.2.2.2.2, List.length_drop]
        by_cases hrest : ((t :: ts').drop (min (t :: ts').length max_tokens)) = []
        · have hle : (t :: ts').length ≤ min (t :: ts').length max_tokens := by
            rw [List.drop_eq_nil_iff] at hrest
            exact hrest
          have hlen : (t :: ts').length ≤ max_tokens := by omega
          have h1 : (t :: ts').length - min (t :: ts').length max_tokens = 0 := by omega
          rw [h1]
          rw [Nat.div_eq_of_lt (by omega)]
          have h2 : (t :: ts').length + max_tokens - 1 = ((t :: ts').length - 1) + max_tokens := by
            omega
          rw [h2, Nat.add_div_right _ (by omega), Nat.div_eq_of_lt (by omega)]
        · have hklt : min (t :: ts').length max_tokens < (t :: ts').length := by
            by_contra hge
            apply hrest
            rw [List.drop_eq_nil_iff]
            omega
          have hkmax : min (t :: ts').length max_tokens = max_tokens := by omega
          rw [hkmax]
          have h2 : (t :: ts').length + max_tokens - 1
              = ((t :: ts').length - max_tokens + max_tokens - 1) + max_tokens := by
            omega
          rw [h2, Nat.add_div_right _ (by omega)]

theorem mk_toList (s : String) : String.mk s.toList = s := rfl

theorem splitCharList_no_sep (sep : Char) :
    ∀ cs : List Char, sep ∉ cs → splitCharList sep cs = [cs] := by
  intro cs
  induction cs with
  | nil => intro _; rfl
  | cons c cs ih =>
    intro h
    rw [List.mem_cons, not_or] at h
    have h1 : (c == sep) = false := by
      rw [beq_eq_false_iff_ne]
      exact fun hc => h.1 hc.symm
    simp only [splitCharList, h1, Bool.false_eq_true, if_false]
    rw [ih h.2]

theorem pySplit_single (text : String) (h : '\n' ∉ text.toList) :
    pySplit '\n' text = [text] := by
  unfold pySplit
  rw [splitCharList_no_sep _ _ h]
  simp [mk_toList]

theorem processPara_oversized (max_tokens : Nat) (encode : String → List Token)
    (para : String) (hover : max_tokens < (encode para).length) :
    processPara max_tokens encode ⟨[], [], 0⟩ para
      = ⟨(sliceLoop (encode para).length max_tokens (encode para)).1, [], 0⟩ := by
  have h1 : (0 : Nat) + (encode para).length > max_tokens := by omega
  simp [processPara, h1, hover]

theorem split_single_oversized (text : String) (max_tokens : Nat)
    (encode : String → List Token)
    (hpara : '\n' ∉ text.toList)
    (hover : max_tokens < (encode text).length) :
    split_text_into_chunks text max_tokens encode
      = (sliceLoop (encode text).length max_tokens (encode text)).1 := by
  unfold split_text_into_chunks
  rw [pySplit_single text hpara]
  simp only [List.foldl_cons, List.foldl_nil]
  rw [processPara_oversized max_tokens encode text hover]
  simp

theorem runChunks_fst_eq_flatten (step : Nat → List Token → List JsonVal × List ExtractError) :
    ∀ (chunks : List (List Token)) (i : Nat),
      (runChunks step i chunks).1 = (chunkOutputs step i chunks).flatten := by
  intro chunks
  induction chunks with
  | nil => intro i; rfl
  | cons c cs ih => intro i; simp [runChunks, chunkOutputs, ih]

theorem runChunks_fst_append (step : Nat → List Token → List JsonVal × List ExtractError) :
    ∀ (xs ys : List (List Token)) (i : Nat),
      (runChunks step i (xs ++ ys)).1
        = (runChunks step i xs).1 ++ (runChunks step (i + xs.length) ys).1 := by
  intro xs
  induction xs with
  | nil => intro ys i; simp [runChunks]
  | cons x xs ih =>
    intro ys i
    have hidx : i + (x :: xs).length = (i + 1) + xs.length := by simp; omega
    simp only [List.cons_append, runChunks, List.append_eq, ih, hidx, List.append_assoc]

theorem runChunks_snd_append (step : Nat → List Token → List JsonVal × List ExtractError) :
    ∀ (xs ys : List (List Token)) (i : Nat),
      (runChunks step i (xs ++ ys)).2
        = (runChunks step i xs).2 ++ (runChunks step (i + xs.length) ys).2 := by
  intro xs
  induction xs with
  | nil => intro ys i; simp [runChunks]
  | cons x xs ih =>
    intro ys i
    have hidx : i + (x :: xs).length = (i + 1) + xs.length := by simp; omega
    simp only [List.cons_append, runChunks, List.append_eq, ih, hidx, List.append_assoc]

theorem chunkOutputs_append (step : Nat → List Token → List JsonVal × List ExtractError) :
    ∀ (xs ys : List (List Token)) (i : Nat),
      chunkOutputs step i (xs ++ ys)
        = chunkOutputs step i xs ++ chunkOutputs step (i + xs.length) ys := by
  intro xs
  induction xs with
  | nil => intro ys i; simp [chunkOutputs]
  | cons x xs ih =>
    intro ys i
    have hidx : i + (x :: xs).length = (i + 1) + xs.length := by simp; omega
    simp only [List.cons_append, chunkOutputs, List.append_eq, ih, hidx]

theorem finalizeRows_false (all_data : List JsonVal) :
    finalizeRows false all_data = all_data.take 1 := by
  cases all_data <;> rfl

theorem finalizeRows_true (all_data : List JsonVal) :
    finalizeRows true all_data = all_data := rfl

theorem foldl_loads_eq_filterMap (f : String → Option JsonVal) :
    ∀ (l : List String) (acc : List JsonVal),
      l.foldl (fun data x =>
        match f x with
        | some v => data ++ [v]
        | none => data) acc = acc ++ l.filterMap f := by
  intro l
  induction l with
  | nil => intro acc; simp
  | cons x l ih =>
    intro acc
    cases hf : f x with
    | none => simp [List.foldl_cons, hf, ih, List.filterMap_cons]
    | some v => simp [List.foldl_cons, hf, ih, List.filterMap_cons]

theorem parseCompletion_eq_filterMap (resp : String) :
    parseCompletion resp = (findCandidates (flattenNewlines resp)).filterMap jsonLoads := by
  unfold parseCompletion
  rw [foldl_loads_eq_filterMap jsonLoads (findCandidates (flattenNewlines resp)) []]
  simp

theorem extract_ws (encode : String → List Token) (decode : List Token → String)
    (complete : Nat → String → Option String) (text columns instructions : String)
    (multiple_rows : Bool) (h : (pyStrip text).isEmpty = true) :
    extract_data_with_openai encode decode complete text columns instructions multiple_rows
      = ([], []) := by
  simp [extract_data_with_openai, h]

theorem extract_too_long (encode : String → List Token) (decode : List Token → String)
    (complete : Nat → String → Option String) (text columns instructions : String)
    (multiple_rows : Bool) (hws : (pyStrip text).isEmpty = false)
    (hav : availableTokens encode columns instructions ≤ 0) :
    extract_data_with_openai encode decode complete text columns instructions multiple_rows
      = ([], [ExtractError.promptTooLong]) := by
  simp [extract_data_with_openai, hws, hav]

theorem extract_run (encode : String → List Token) (decode : List Token → String)
    (complete : Nat → String → Option String) (text columns instructions : String)
    (multiple_rows : Bool) (hws : (pyStrip text).isEmpty = false)
    (hav : 0 < availableTokens encode columns instructions) :
    extract_data_with_openai encode decode complete text columns instructions multiple_rows
      = afterBudget encode decode complete text columns instructions multiple_rows
          (availableTokens encode columns instructions).toNat := by
  simp only [extract_data_with_openai, hws, Bool.false_eq_true, if_false]
  rw [if_neg (by omega)]

theorem afterBudget_nil (encode : String → List Token) (decode : List Token → String)
    (complete : Nat → String → Option String) (text columns instructions : String)
    (multiple_rows : Bool) (budget : Nat)
    (h : (split_text_into_chunks text budget encode).isEmpty = true) :
    afterBudget encode decode complete text columns instructions multiple_rows budget
      = ([], []) := by
  simp [afterBudget, h]

theorem afterBudget_cons (encode : String → List Token) (decode : List Token → String)
    (complete : Nat → String → Option String) (text columns instructions : String)
    (multiple_rows : Bool) (budget : Nat)
    (h : (split_text_into_chunks text budget encode).isEmpty = false) :
    afterBudget encode decode complete text columns instructions multiple_rows budget
      = (finalizeRows multiple_rows
           (runChunks (processChunk complete decode columns instructions) 0
             (split_text_into_chunks text budget encode)).1,
         (runChunks (processChunk complete decode columns instructions) 0
           (split_text_into_chunks text budget encode)).2) := by
  simp [afterBudget, h]

theorem mem_intRange {a b x : Int} : x ∈ intRange a b ↔ a ≤ x ∧ x < b := by
  unfold intRange
  simp only [List.mem_map, List.mem_range]
  constructor
  · rintro ⟨i, hi, rfl⟩
    omega
  · intro h
    exact ⟨(x - a).toNat, by omega, by omega⟩

theorem intRange_sorted (a b : Int) : (intRange a b).Sorted (· < ·) := by
  unfold intRange
  rw [List.Sorted, List.pairwise_map]
  have h := List.pairwise_lt_range ((b - a).toNat)
  exact h.imp (by intro i j hij; omega)

theorem sorted_lt_nodup {l : List Int} (h : l.Sorted (· < ·)) : l.Nodup :=
  h.imp (fun hlt => ne_of_lt hlt)

theorem mem_insertPage (x : Int) :
    ∀ (l : List Int) (a : Int), a ∈ insertPage x l ↔ a = x ∨ a ∈ l := by
  intro l
  induction l with
  | nil => intro a; simp [insertPage]
  | cons y ys ih =>
    intro a
    unfold insertPage
    by_cases h1 : x < y
    · simp only [if_pos h1, List.mem_cons]
    · rw [if_neg h1]
      by_cases h2 : x = y
      · subst h2
        rw [if_pos rfl]
        simp only [List.mem_cons]
        tauto
      · rw [if_neg h2]
        simp only [List.mem_cons, ih]
        tauto

theorem sorted_insertPage (x : Int) :
    ∀ l : List Int, l.Sorted (· < ·) → (insertPage x l).Sorted (· < ·) := by
  intro l
  induction l with
  | nil => intro _; simp [insertPage]
  | cons y ys ih =>
    intro hs
    rw [List.sorted_cons] at hs
    unfold insertPage
    by_cases h1 : x < y
    · rw [if_pos h1, List.sorted_cons]
      refine ⟨?_, ?_⟩
      · intro b hb
        rcases List.mem_cons.mp hb with rfl | hb
        · exact h1
        · exact lt_trans h1 (hs.1 b hb)
      · rw [List.sorted_cons]
        exact hs
    · rw [if_neg h1]
      by_cases h2 : x = y
      · rw [if_pos h2, List.sorted_cons]
        exact hs
      · rw [if_neg h2, List.sorted_cons]
        have hyx : y < x := by omega
        refine ⟨?_, ih hs.2⟩
        intro b hb
        rcases (mem_insertPage x ys b).mp hb with rfl | hb
        · exact hyx
        · exact hs.1 b hb

theorem foldl_insertPage_sorted :
    ∀ l acc : List Int, acc.Sorted (· < ·) →
      (l.foldl (fun acc x => insertPage x acc) acc).Sorted (· < ·) := by
  intro l
  induction l with
  | nil => intro acc h; simpa using h
  | cons x l ih =>
    intro acc h
    simpa [List.foldl_cons] using ih _ (sorted_insertPage x acc h)

theorem mem_foldl_insertPage :
    ∀ (l acc : List Int) (a : Int),
      a ∈ l.foldl (fun acc x => insertPage x acc) acc ↔ a ∈ acc ∨ a ∈ l := by
  intro l
  induction l with
  | nil => intro acc a; simp
  | cons x l ih =>
    intro acc a
    rw [List.foldl_cons, ih, mem_insertPage]
    simp only [List.mem_cons]
    tauto

theorem sortedSet_sorted (l : List Int) : (sortedSet l).Sorted (· < ·) :=
  foldl_insertPage_sorted l [] (by simp)

theorem mem_sortedSet {l : List Int} {a : Int} : a ∈ sortedSet l ↔ a ∈ l := by
  unfold sortedSet
  rw [mem_foldl_insertPage]
  simp

theorem processParts_mem (total_pages : Nat) :
    ∀ (parts : List String) (pages : List Int),
      processParts total_pages parts = some pages →
      ∀ x ∈ pages, 0 ≤ x ∧ x < (total_pages : Int) := by
  intro parts
  induction parts with
  | nil =>
    intro pages h x hx
    simp only [processParts, Option.some.injEq] at h
    subst h
    simp at hx
  | cons part rest ih =>
    intro pages h x hx
    unfold processParts at h
    cases hc : part.toList.contains '-' with
    | true =>
      rw [hc] at h
      simp only [if_true] at h
      cases hr : parseRangeTerm part with
      | none => rw [hr] at h; exact absurd h (by simp)
      | some se =>
        rw [hr] at h
        cases hp : processParts total_pages rest with
        | none => rw [hp] at h; exact absurd h (by simp)
        | some pages1 =>
          rw [hp] at h
          simp only [Option.some.injEq] at h
          subst h
          rcases List.mem_append.mp hx with hx1 | hx1
          · have := mem_intRange.mp hx1
            omega
          · exact ih pages1 hp x hx1
    | false =>
      rw [hc] at h
      simp only [Bool.false_eq_true, if_false] at h
      cases hi : pyInt part with
      | none => rw [hi] at h; exact absurd h (by simp)
      | some page =>
        rw [hi] at h
        cases hp : processParts total_pages rest with
        | none => rw [hp] at h; exact absurd h (by simp)
        | some pages1 =>
          rw [hp] at h
          dsimp only at h
          by_cases hb : 1 ≤ page ∧ page ≤ (total_pages : Int)
          · rw [if_pos hb] at h
            simp only [Option.some.injEq] at h
            subst h
            rcases List.mem_cons.mp hx with rfl | hx1
            · omega
            · exact ih pages1 hp x hx1
          · rw [if_neg hb] at h
            simp only [Option.some.injEq] at h
            subst h
            exact ih pages1 hp x hx

theorem processParts_bad (total_pages : Nat) :
    ∀ (parts : List String) (part : String), part ∈ parts → badTerm part →
      processParts total_pages parts = none := by
  intro parts
  induction parts with
  | nil => intro part h; simp at h
  | cons p rest ih =>
    intro part hmem hbad
    rcases List.mem_cons.mp hmem with rfl | hmem
    · unfold processParts
      rcases hbad with ⟨hc, hr⟩ | ⟨hc, hi⟩
      · rw [if_pos hc, hr]
      · rw [if_neg (by simpa using hc), hi]
    · have hres := ih part hmem hbad
      unfold processParts
      cases hc : p.toList.contains '-' with
      | true =>
        simp only [if_true]
        cases hr : parseRangeTerm p with
        | none => rfl
        | some se => rw [hres]
      | false =>
        simp only [Bool.false_eq_true, if_false]
        cases hi : pyInt p with
        | none => rfl
        | some page => rw [hres]

/-- C7: for every range expression and every `total_pages`, the result of
`parse_page_range` is strictly sorted ascending, duplicate-free, and every
element lies in `[0, total_pages)`; an empty or whitespace-only expression
returns exactly all indices `0..total_pages-1`; and when `total_pages = 0`
the result is empty regardless of the expression. -/
theorem claim_C7 (expr : String) (total_pages : Nat) :
    (parse_page_range expr total_pages).Sorted (· < ·) ∧
    (parse_page_range expr total_pages).Nodup ∧
    (∀ x ∈ parse_page_range expr total_pages, 0 ≤ x ∧ x < (total_pages : Int)) ∧
    ((pyStrip expr).isEmpty = true →
      ∀ x : Int, x ∈ parse_page_range expr total_pages ↔ 0 ≤ x ∧ x < (total_pages : Int)) ∧
    (total_pages = 0 → parse_page_range expr total_pages = []) := by
  unfold parse_page_range
  cases hstrip : (pyStrip expr).isEmpty with
  | true =>
    simp only [if_true]
    refine ⟨intRange_sorted 0 _, sorted_lt_nodup (intRange_sorted 0 _), ?_, ?_, ?_⟩
    · intro x hx
      have := mem_intRange.mp hx
      omega
    · intro _ x
      exact mem_intRange
    · intro h0
      subst h0
      decide
  | false =>
    simp only [Bool.false_eq_true, if_false]
    cases hp : processParts total_pages (pySplit ',' expr) with
    | none =>
      refine ⟨by simp, by simp, by simp, fun h => by simp at h, fun _ => rfl⟩
    | some pages =>
      refine ⟨sortedSet_sorted pages, sorted_lt_nodup (sortedSet_sorted pages), ?_, ?_, ?_⟩
      · intro x hx
        exact processParts_mem total_pages _ pages hp x (mem_sortedSet.mp hx)
      · intro h
        simp at h
      · intro h0
        subst h0
        have hempty : pages = [] := by
          rw [List.eq_nil_iff_forall_not_mem]
          intro x hx
          have := processParts_mem 0 _ pages hp x hx
          omega
        rw [hempty]
        rfl

/-- C7 witness: at `expr = ""` and `total_pages = 3` the parser returns all
of `0, 1, 2` and these facts are drawn from the theorem. -/
theorem claim_C7_witness :
    ((0 : Int) ∈ parse_page_range "" 3 ↔ 0 ≤ (0 : Int) ∧ (0 : Int) < 3) ∧
    (parse_page_range "" 3).Sorted (· < ·) :=
  ⟨(claim_C7 "" 3).2.2.2.1 (by decide) 0, (claim_C7 "" 3).1⟩

/-- C8: a term failing integer or range parsing makes the whole expression
parse to the empty list, while an empty clamped range is merely skipped:
`parse_page_range "abc" 5 = []`, `parse_page_range "2-1" 5 = []`,
`parse_page_range "1-3,5" 5 = [0,1,2,4]`, and in `"2-1,3"` the skipped
`2-1` still lets `3` contribute. -/
theorem claim_C8 :
    (∀ (expr : String) (total_pages : Nat) (part : String),
        (pyStrip expr).isEmpty = false → part ∈ pySplit ',' expr → badTerm part →
        parse_page_range expr total_pages = []) ∧
    parse_page_range "abc" 5 = [] ∧
    parse_page_range "2-1" 5 = [] ∧
    parse_page_range "1-3,5" 5 = [0, 1, 2, 4] ∧
    parse_page_range "2-1,3" 5 = [2] := by
  refine ⟨?_, by decide, by decide, by decide, by decide⟩
  intro expr total_pages part hne hmem hbad
  unfold parse_page_range
  rw [hne]
  simp only [Bool.false_eq_true, if_false]
  rw [processParts_bad total_pages _ part hmem hbad]

/-- C8 witness: the invalid term `"x"` in `"1,x"` empties the result even
though `"1"` alone would have contributed. -/
theorem claim_C8_witness : parse_page_range "1,x" 4 = [] :=
  claim_C8.1 "1,x" 4 "x" (by decide) (by decide) (Or.inr ⟨by decide, by decide⟩)

theorem flatten_of_all_nil {α : Type} :
    ∀ l : List (List α), (∀ p ∈ l, p = []) → l.flatten = [] := by
  intro l h
  induction l with
  | nil => rfl
  | cons p ps ih =>
    rw [List.flatten_cons, h p (List.mem_cons_self p ps), List.nil_append]
    exact ih (fun q hq => h q (List.mem_cons_of_mem p hq))

theorem take_one_append {α : Type} (c x : List α) (h : c ≠ []) :
    (c ++ x).take 1 = c.take 1 := by
  cases c with
  | nil => exact absurd rfl h
  | cons a l => simp

set_option maxRecDepth 100000

/-- C1: the claim (and the function's own docstring) say every emitted
chunk holds at most `max_tokens` tokens, but the separator token is
appended after the fit check `current_count + para_count <= max_tokens`:
at the failing input `text = "a"`, `max_tokens = 1` (one-token paragraph,
one-token newline) the splitter emits the chunk `"a\n"` assembled from two
tokens, exceeding the budget. -/
theorem claim_C1 :
    split_text_into_chunks "a" 1 charEncode = [[97, 10]] ∧
    ∃ c ∈ split_text_into_chunks "a" 1 charEncode, 1 < c.length :=
  ⟨by decide, ⟨[97, 10], by decide, by decide⟩⟩

/-- C2 counterexample: empty input does not yield zero chunks from
`split_text_into_chunks`; the single empty paragraph contributes its
newline separator, giving the one chunk `"\n"`. -/
theorem claim_C2_counterexample :
    split_text_into_chunks "" 5 charEncode = [[10]] ∧
    split_text_into_chunks "" 5 charEncode ≠ [] :=
  ⟨by decide, by decide⟩

/-- C2 (amended): on empty/whitespace-only text the splitter emits
separator-only chunks (for `""`: exactly `["\n"]`) rather than zero chunks;
the Orchestrator nevertheless returns an empty record list with no error
for such input, because it returns before splitting whenever
`text.strip()` is empty — and it also returns empty (not an error) in the
case where the splitter yields zero chunks. -/
theorem claim_C2 :
    split_text_into_chunks "" 5 charEncode = [[10]] ∧
    (∀ (encode : String → List Token) (decode : List Token → String)
        (complete : Nat → String → Option String)
        (text columns instructions : String) (multiple_rows : Bool),
        (pyStrip text).isEmpty = true →
        extract_data_with_openai encode decode complete text columns instructions
          multiple_rows = ([], [])) ∧
    (∀ (encode : String → List Token) (decode : List Token → String)
        (complete : Nat → String → Option String)
        (text columns instructions : String) (multiple_rows : Bool),
        (pyStrip text).isEmpty = false →
        0 < availableTokens encode columns instructions →
        (split_text_into_chunks text
            (availableTokens encode columns instructions).toNat encode).isEmpty = true →
        extract_data_with_openai encode decode complete text columns instructions
          multiple_rows = ([], [])) := by
  refine ⟨by decide, ?_, ?_⟩
  · intro encode decode complete text columns instructions multiple_rows h
    exact extract_ws encode decode complete text columns instructions multiple_rows h
  · intro encode decode complete text columns instructions multiple_rows hws hav hch
    rw [extract_run encode decode complete text columns instructions multiple_rows hws hav,
      afterBudget_nil encode decode complete text columns instructions multiple_rows _ hch]

/-- C2 witness: whitespace-only text gives an empty, error-free result, and
so does a (degenerate-tokenizer) input on which the splitter produces zero
chunks. -/
theorem claim_C2_witness :
    extract_data_with_openai charEncode charDecode (fun _ _ => none) " " "c" "i" true
        = ([], []) ∧
    extract_data_with_openai (fun _ => []) charDecode (fun _ _ => none) "x" "c" "i" true
        = ([], []) :=
  ⟨claim_C2.2.1 charEncode charDecode (fun _ _ => none) " " "c" "i" true (by decide),
   claim_C2.2.2 (fun _ => []) charDecode (fun _ _ => none) "x" "c" "i" true (by decide)
     (by decide) (by decide)⟩

/-- C3: `available_tokens = model_max_tokens - tokens(template with empty
text) - reserved_response_tokens`, tokenized with the same tokenizer used
for chunking; whenever it is non-positive (and the text passes the earlier
whitespace guard) the call reports `PromptTooLong` and returns no records,
and the outcome is independent of the document text — no chunk splitting
happens. -/
theorem claim_C3 :
    (∀ (encode : String → List Token) (columns instructions : String),
        availableTokens encode columns instructions
          = (model_max_tokens : Int)
              - ((encode (prompt_render columns instructions "")).length : Int)
              - (reserved_response_tokens : Int)) ∧
    (∀ (encode : String → List Token) (decode : List Token → String)
        (complete : Nat → String → Option String)
        (text columns instructions : String) (multiple_rows : Bool),
        (pyStrip text).isEmpty = false →
        availableTokens encode columns instructions ≤ 0 →
        extract_data_with_openai encode decode complete text columns instructions
          multiple_rows = ([], [ExtractError.promptTooLong])) ∧
    (∀ (encode : String → List Token) (decode : List Token → String)
        (complete : Nat → String → Option String)
        (text1 text2 columns instructions : String) (multiple_rows : Bool),
        (pyStrip text1).isEmpty = false →
        (pyStrip text2).isEmpty = false →
        availableTokens encode columns instructions ≤ 0 →
        extract_data_with_openai encode decode complete text1 columns instructions
            multiple_rows
          = extract_data_with_openai encode decode complete text2 columns instructions
              multiple_rows) := by
  refine ⟨fun _ _ _ => rfl, ?_, ?_⟩
  · intro encode decode complete text columns instructions multiple_rows hws hav
    exact extract_too_long encode decode complete text columns instructions multiple_rows
      hws hav
  · intro encode decode complete text1 text2 columns instructions multiple_rows h1 h2 hav
    rw [extract_too_long encode decode complete text1 columns instructions multiple_rows
        h1 hav,
      extract_too_long encode decode complete text2 columns instructions multiple_rows
        h2 hav]

/-- C3 witness: a tokenizer producing 130000 static-prompt tokens leaves a
negative budget and the call aborts with `PromptTooLong`. -/
theorem claim_C3_witness :
    extract_data_with_openai (fun _ => List.replicate 130000 0) charDecode
        (fun _ _ => none) "x" "c" "i" true = ([], [ExtractError.promptTooLong]) :=
  claim_C3.2.1 (fun _ => List.replicate 130000 0) charDecode (fun _ _ => none)
    "x" "c" "i" true (by decide)
    (by simp only [availableTokens, List.length_replicate, model_max_tokens,
          reserved_response_tokens]
        decide)

/-- C4: with `multiple_rows = false` the orchestrator returns at most one
record, namely the head of the chunk-ordered concatenation of per-chunk
parses — the first successfully parsed object of the first chunk that
produced any, no matter how many objects other chunks produced. -/
theorem claim_C4 (encode : String → List Token) (decode : List Token → String)
    (complete : Nat → String → Option String) (text columns instructions : String) :
    (extract_data_with_openai encode decode complete text columns instructions
        false).1.length ≤ 1 ∧
    ((pyStrip text).isEmpty = false →
      0 < availableTokens encode columns instructions →
      ∀ outs : List (List JsonVal),
        outs = chunkOutputs (processChunk complete decode columns instructions) 0
          (split_text_into_chunks text
            (availableTokens encode columns instructions).toNat encode) →
        (extract_data_with_openai encode decode complete text columns instructions
            false).1 = outs.flatten.take 1 ∧
        (∀ (pre : List (List JsonVal)) (c : List JsonVal) (suf : List (List JsonVal)),
          outs = pre ++ c :: suf → (∀ p ∈ pre, p = []) → c ≠ [] →
          (extract_data_with_openai encode decode complete text columns instructions
              false).1 = c.take 1)) := by
  have hmain : ∀ hws : (pyStrip text).isEmpty = false,
      ∀ hav : 0 < availableTokens encode columns instructions,
      (extract_data_with_openai encode decode complete text columns instructions false).1
        = (chunkOutputs (processChunk complete decode columns instructions) 0
            (split_text_into_chunks text
              (availableTokens encode columns instructions).toNat
              encode)).flatten.take 1 := by
    intro hws hav
    rw [extract_run encode decode complete text columns instructions false hws hav]
    cases hch : (split_text_into_chunks text
        (availableTokens encode columns instructions).toNat encode).isEmpty with
    | true =>
      rw [afterBudget_nil encode decode complete text columns instructions false _ hch]
      rw [List.isEmpty_iff] at hch
      rw [hch]
      rfl
    | false =>
      rw [afterBudget_cons encode decode complete text columns instructions false _ hch]
      rw [finalizeRows_false, runChunks_fst_eq_flatten]
  constructor
  · cases hws : (pyStrip text).isEmpty with
    | true =>
      rw [extract_ws encode decode complete text columns instructions false hws]
      simp
    | false =>
      by_cases hav : availableTokens encode columns instructions ≤ 0
      · rw [extract_too_long encode decode complete text columns instructions false
          hws hav]
        simp
      · rw [hmain hws (by omega)]
        simp only [List.length_take]
        omega
  · intro hws hav outs houts
    have h1 : (extract_data_with_openai encode decode complete text columns instructions
        false).1 = outs.flatten.take 1 := by
      rw [hmain hws hav, houts]
    refine ⟨h1, ?_⟩
    intro pre c suf hdec hpre hc
    rw [h1, hdec, List.flatten_append, List.flatten_cons,
      flatten_of_all_nil pre hpre, List.nil_append, take_one_append c _ hc]

/-- C4 witness: one chunk whose completion parses to the single object
`{a: 1}`; with `multiple_rows = false` exactly that record is returned. -/
theorem claim_C4_witness :
    (extract_data_with_openai charEncode charDecode
        (fun _ _ => some "\x7b\"a\": 1\x7d") "hi" "c" "i" false).1
      = [JsonVal.obj [("a", JsonVal.num "1")]] := by
  have h := (claim_C4 charEncode charDecode (fun _ _ => some "\x7b\"a\": 1\x7d")
      "hi" "c" "i").2 (by decide) (by decide) _ rfl
  exact h.2 [] [JsonVal.obj [("a", JsonVal.num "1")]] [] (by rfl) (by simp) (by simp)

/-- C5: response parsing flattens newlines, scans every non-greedy
brace-delimited candidate, parses each independently and keeps exactly the
candidates that parse, discarding failures silently; in particular
`"Here is the data: {"a": 1} and more text"` yields exactly `{a: 1}`. -/
theorem claim_C5 (resp : String) :
    parseCompletion resp
        = (findCandidates (flattenNewlines resp)).filterMap jsonLoads ∧
    (∀ v ∈ parseCompletion resp,
        ∃ cand ∈ findCandidates (flattenNewlines resp), jsonLoads cand = some v) ∧
    parseCompletion "Here is the data: \x7b\"a\": 1\x7d and more text"
        = [JsonVal.obj [("a", JsonVal.num "1")]] := by
  refine ⟨parseCompletion_eq_filterMap resp, ?_, by rfl⟩
  intro v hv
  rw [parseCompletion_eq_filterMap resp] at hv
  rcases List.mem_filterMap.mp hv with ⟨cand, hmem, hcand⟩
  exact ⟨cand, hmem, hcand⟩

/-- C5 witness: the spec's example response parses to exactly one record,
with the surrounding prose ignored. -/
theorem claim_C5_witness :
    parseCompletion "Here is the data: \x7b\"a\": 1\x7d and more text"
      = [JsonVal.obj [("a", JsonVal.num "1")]] :=
  (claim_C5 "").2.2

/-- C6: a chunk whose remote call fails (`none`) contributes no records but
a logged failure, and the records of all other chunks — before and after —
still appear in order in the final accumulated list; with `multiple_rows`
true the orchestrator returns exactly that chunk-ordered accumulation. -/
theorem claim_C6 (encode : String → List Token) (decode : List Token → String)
    (complete : Nat → String → Option String) (text columns instructions : String) :
    (∀ (step : Nat → List Token → List JsonVal × List ExtractError)
        (i : Nat) (pre : List (List Token)) (c : List Token) (suf : List (List Token))
        (err : ExtractError),
        step (i + pre.length) c = ([], [err]) →
        (runChunks step i (pre ++ c :: suf)).1
            = (runChunks step i pre).1 ++ (runChunks step (i + pre.length + 1) suf).1 ∧
        err ∈ (runChunks step i (pre ++ c :: suf)).2) ∧
    (∀ (i : Nat) (chunk : List Token),
        complete i (prompt_render columns instructions (decode chunk)) = none →
        processChunk complete decode columns instructions i chunk
            = ([], [ExtractError.chunkFailure chunk])) ∧
    ((pyStrip text).isEmpty = false →
      0 < availableTokens encode columns instructions →
      (split_text_into_chunks text (availableTokens encode columns instructions).toNat
          encode).isEmpty = false →
      extract_data_with_openai encode decode complete text columns instructions true
        = runChunks (processChunk complete decode columns instructions) 0
            (split_text_into_chunks text
              (availableTokens encode columns instructions).toNat encode)) := by
  refine ⟨?_, ?_, ?_⟩
  · intro step i pre c suf err hstep
    constructor
    · rw [runChunks_fst_append step pre (c :: suf) i]
      have hcons : (runChunks step (i + pre.length) (c :: suf)).1
          = (runChunks step (i + pre.length + 1) suf).1 := by
        simp [runChunks, hstep]
      rw [hcons]
    · rw [runChunks_snd_append step pre (c :: suf) i]
      have hcons : (runChunks step (i + pre.length) (c :: suf)).2
          = err :: (runChunks step (i + pre.length + 1) suf).2 := by
        simp [runChunks, hstep]
      rw [hcons]
      simp
  · intro i chunk hfail
    unfold processChunk
    rw [hfail]
  · intro hws hav hch
    rw [extract_run encode decode complete text columns instructions true hws hav,
      afterBudget_cons encode decode complete text columns instructions true _ hch,
      finalizeRows_true]

/-- C6 witness: with a completion oracle that always fails, the single
chunk of `"hi"` contributes no records, the failure is recorded, and the
call still returns normally. -/
theorem claim_C6_witness :
    (extract_data_with_openai charEncode charDecode (fun _ _ => none)
        "hi" "c" "i" true).1 = [] ∧
    ExtractError.chunkFailure [104, 105, 10]
      ∈ (extract_data_with_openai charEncode charDecode (fun _ _ => none)
          "hi" "c" "i" true).2 := by
  have h3 := (claim_C6 charEncode charDecode (fun _ _ => none) "hi" "c" "i").2.2
    (by decide) (by decide) (by decide)
  have hch : split_text_into_chunks "hi"
      (availableTokens charEncode "c" "i").toNat charEncode
      = [] ++ [104, 105, 10] :: [] := by decide
  have h1 := (claim_C6 charEncode charDecode (fun _ _ => none) "hi" "c" "i").1
    (processChunk (fun _ _ => none) charDecode "c" "i") 0 [] [104, 105, 10] []
    (ExtractError.chunkFailure [104, 105, 10]) (by rfl)
  rw [h3, hch]
  exact ⟨by rw [h1.1]; rfl, h1.2⟩

/-- C9: a single paragraph (no newline in the text) whose token count `n`
exceeds `max_tokens` is emitted as exactly the slicing loop's output:
`⌈n/max_tokens⌉` chunks of consecutive tokens in order (their
concatenation is the paragraph's token sequence), each chunk of exactly
`max_tokens` tokens except possibly the last, none empty, none over the
budget. -/
theorem claim_C9 (encode : String → List Token) (text : String) (max_tokens : Nat)
    (hmax : 1 ≤ max_tokens) (hpara : '\n' ∉ text.toList)
    (hover : max_tokens < (encode text).length) :
    split_text_into_chunks text max_tokens encode
        = (sliceLoop (encode text).length max_tokens (encode text)).1 ∧
    (split_text_into_chunks text max_tokens encode).flatten = encode text ∧
    (split_text_into_chunks text max_tokens encode).length
        = ((encode text).length + max_tokens - 1) / max_tokens ∧
    (∀ c ∈ (split_text_into_chunks text max_tokens encode).dropLast,
        c.length = max_tokens) ∧
    (∀ c ∈ split_text_into_chunks text max_tokens encode,
        c ≠ [] ∧ c.length ≤ max_tokens) := by
  have hs := split_single_oversized text max_tokens encode hpara hover
  have hspec := sliceLoop_spec max_tokens hmax (encode text).length (encode text) le_rfl
  rw [hs]
  exact ⟨rfl, hspec.2.1, hspec.2.2.2.2, hspec.2.2.2.1, hspec.2.2.1⟩

/-- C9 witness: `"abcde"` (5 one-character tokens) with budget 2 splits
into `⌈5/2⌉ = 3` slices `ab`, `cd`, `e`. -/
theorem claim_C9_witness :
    split_text_into_chunks "abcde" 2 charEncode = [[97, 98], [99, 100], [101]] ∧
    (split_text_into_chunks "abcde" 2 charEncode).length = (5 + 2 - 1) / 2 := by
  have h := claim_C9 charEncode "abcde" 2 (by decide) (by decide) (by decide)
  exact ⟨h.1.trans (by decide), h.2.2.1⟩

/-- C10: the slicing loop removes `min(remaining, max_tokens) ≥ 1` tokens
per iteration, so fuel equal to the paragraph's token count suffices
whenever `max_tokens ≥ 1`; at `max_tokens = 0` an iteration leaves the
token list unchanged (no decrease on a non-empty paragraph); and the
orchestrator only ever invokes the splitter with a budget of at least 1,
since it aborts with `PromptTooLong` whenever `available_tokens ≤ 0`. -/
theorem claim_C10 :
    (∀ (max_tokens : Nat) (ts : List Token), 1 ≤ max_tokens →
        (sliceLoop ts.length max_tokens ts).2 = []) ∧
    (∀ (max_tokens : Nat) (ts : List Token), ts ≠ [] → 1 ≤ max_tokens →
        (sliceStep max_tokens ts).2.length < ts.length) ∧
    (∀ ts : List Token, (sliceStep 0 ts).2 = ts) ∧
    (∀ (encode : String → List Token) (decode : List Token → String)
        (complete : Nat → String → Option String)
        (text columns instructions : String) (multiple_rows : Bool),
        (pyStrip text).isEmpty = false →
        availableTokens encode columns instructions ≤ 0 →
        extract_data_with_openai encode decode complete text columns instructions
          multiple_rows = ([], [ExtractError.promptTooLong])) ∧
    (∀ (encode : String → List Token) (decode : List Token → String)
        (complete : Nat → String → Option String)
        (text columns instructions : String) (multiple_rows : Bool),
        (pyStrip text).isEmpty = false →
        0 < availableTokens encode columns instructions →
        1 ≤ (availableTokens encode columns instructions).toNat ∧
        extract_data_with_openai encode decode complete text columns instructions
            multiple_rows
          = afterBudget encode decode complete text columns instructions multiple_rows
              (availableTokens encode columns instructions).toNat) := by
  refine ⟨?_, ?_, ?_, ?_, ?_⟩
  · intro max_tokens ts h
    exact (sliceLoop_spec max_tokens h ts.length ts le_rfl).1
  · intro max_tokens ts hne hmax
    have h1 : 1 ≤ ts.length := List.length_pos.mpr hne
    simp only [sliceStep, List.length_drop]
    omega
  · intro ts
    simp [sliceStep]
  · intro encode decode complete text columns instructions multiple_rows hws hav
    exact extract_too_long encode decode complete text columns instructions multiple_rows
      hws hav
  · intro encode decode complete text columns instructions multiple_rows hws hav
    exact ⟨by omega,
      extract_run encode decode complete text columns instructions multiple_rows hws hav⟩

/-- C10 witness: the loop finishes on three tokens with budget 2 within
fuel 3; one step at budget 0 leaves `[7]` unchanged; and an oversized
static prompt makes the orchestrator abort with `PromptTooLong` before any
splitting. -/
theorem claim_C10_witness :
    (sliceLoop ([7, 8, 9] : List Token).length 2 [7, 8, 9]).2 = [] ∧
    (sliceStep 0 [7]).2 = [7] ∧
    extract_data_with_openai (fun _ => List.replicate 131000 0) charDecode
        (fun _ _ => none) "y" "c" "i" false = ([], [ExtractError.promptTooLong]) :=
  ⟨claim_C10.1 2 [7, 8, 9] (by decide),
   claim_C10.2.2.1 [7],
   claim_C10.2.2.2.1 (fun _ => List.replicate 131000 0) charDecode (fun _ _ => none)
     "y" "c" "i" false (by decide)
     (by simp only [availableTokens, List.length_replicate, model_max_tokens,
           reserved_response_tokens]
         decide)⟩

theorem processPara_inv (max_tokens : Nat) (encode : String → List Token)
    (hsep : (encode "\n").length = 1) (hmax : 1 ≤ max_tokens)
    (st : SplitState) (para : String)
    (h1 : ∀ c ∈ st.chunks, c.length ≤ max_tokens + 1)
    (h2 : st.current_chunk.length = st.current_token_count)
    (h3 : st.current_token_count ≤ max_tokens + 1) :
    (∀ c ∈ (processPara max_tokens encode st para).chunks,
        c.length ≤ max_tokens + 1) ∧
    (processPara max_tokens encode st para).current_chunk.length
        = (processPara max_tokens encode st para).current_token_count ∧
    (processPara max_tokens encode st para).current_token_count ≤ max_tokens + 1 := by
  dsimp only [processPara]
  by_cases hcase : st.current_token_count + (encode para).length > max_tokens
  · rw [if_pos hcase]
    have hst1 : ∀ c ∈ (if st.current_chunk.isEmpty then st
        else { chunks := st.chunks ++ [st.current_chunk],
               current_chunk := [], current_token_count := 0 } : SplitState).chunks,
        c.length ≤ max_tokens + 1 := by
      by_cases hemp : st.current_chunk.isEmpty
      · rw [if_pos hemp]; exact h1
      · rw [if_neg hemp]
        intro c hc
        rcases List.mem_append.mp hc with hc1 | hc1
        · exact h1 c hc1
        · rw [List.mem_singleton.mp hc1, h2]; exact h3
    have hst1c : (if st.current_chunk.isEmpty then st
        else { chunks := st.chunks ++ [st.current_chunk],
               current_chunk := [], current_token_count := 0 } : SplitState).current_chunk.length
        = (if st.current_chunk.isEmpty then st
            else { chunks := st.chunks ++ [st.current_chunk],
                   current_chunk := [], current_token_count := 0 } : SplitState).current_token_count := by
      by_cases hemp : st.current_chunk.isEmpty
      · rw [if_pos hemp]; exact h2
      · rw [if_neg hemp]
        rfl
    by_cases hover : (encode para).length > max_tokens
    · rw [if_pos hover]
      refine ⟨?_, hst1c, ?_⟩
      · intro c hc
        rcases List.mem_append.mp hc with hc1 | hc1
        · exact hst1 c hc1
        · have := (sliceLoop_spec max_tokens hmax (encode para).length (encode para)
            le_rfl).2.2.1 c hc1
          omega
      · by_cases hemp : st.current_chunk.isEmpty
        · rw [if_pos hemp]; exact h3
        · rw [if_neg hemp]
          exact Nat.zero_le _
    · rw [if_neg hover]
      refine ⟨hst1, rfl, ?_⟩
      show (encode para).length ≤ max_tokens + 1
      omega
  · rw [if_neg hcase]
    refine ⟨h1, ?_, ?_⟩
    · show (st.current_chunk ++ encode para ++ encode "\n").length
        = st.current_token_count + (encode para).length + 1
      simp only [List.length_append, h2, hsep]
    · show st.current_token_count + (encode para).length + 1 ≤ max_tokens + 1
      omega

theorem foldl_processPara_inv (max_tokens : Nat) (encode : String → List Token)
    (hsep : (encode "\n").length = 1) (hmax : 1 ≤ max_tokens) :
    ∀ (paras : List String) (st : SplitState),
      (∀ c ∈ st.chunks, c.length ≤ max_tokens + 1) →
      st.current_chunk.length = st.current_token_count →
      st.current_token_count ≤ max_tokens + 1 →
      (∀ c ∈ (paras.foldl (processPara max_tokens encode) st).chunks,
          c.length ≤ max_tokens + 1) ∧
      (paras.foldl (processPara max_tokens encode) st).current_chunk.length
          = (paras.foldl (processPara max_tokens encode) st).current_token_count ∧
      (paras.foldl (processPara max_tokens encode) st).current_token_count
          ≤ max_tokens + 1 := by
  intro paras
  induction paras with
  | nil => intro st h1 h2 h3; exact ⟨h1, h2, h3⟩
  | cons p ps ih =>
    intro st h1 h2 h3
    rw [List.foldl_cons]
    have h := processPara_inv max_tokens encode hsep hmax st p h1 h2 h3
    exact ih _ h.1 h.2.1 h.2.2

theorem split_chunks_le_succ (text : String) (max_tokens : Nat)
    (encode : String → List Token) (hsep : (encode "\n").length = 1)
    (hmax : 1 ≤ max_tokens) :
    ∀ c ∈ split_text_into_chunks text max_tokens encode,
      c.length ≤ max_tokens + 1 := by
  unfold split_text_into_chunks
  have h := foldl_processPara_inv max_tokens encode hsep hmax (pySplit '\n' text)
    ⟨[], [], 0⟩ (by simp) rfl (Nat.zero_le _)
  by_cases hemp : ((pySplit '\n' text).foldl (processPara max_tokens encode)
      ⟨[], [], 0⟩).current_chunk.isEmpty
  · rw [if_pos hemp]
    exact h.1
  · rw [if_neg hemp]
    intro c hc
    rcases List.mem_append.mp hc with hc1 | hc1
    · exact h.1 c hc1
    · rw [List.mem_singleton.mp hc1, h.2.1]
      exact h.2.2
